import Mathlib

/-!
# Verification of the chunked-backup tool (`src/main.rs`)

Shallow embedding of the backup program's core functions:

* `zipDirectory` models `zip_directory` (main.rs lines 69-136): walks a source
  tree and writes entries into zip segments in a staging directory.
* `cleanup_old_backups` models the function of the same name
  (main.rs lines 185-209): the retention sweep over a staging directory.
* `mainRun` models the orchestration tail of `main` (main.rs lines 274-288):
  zip, then upload, then sweep, each followed by the `?` operator.

Filesystem state is made explicit: the source tree is an inductive tree whose
child-list order models the (fixed, unchanged) order in which `walkdir` yields
directory entries; the staging directory for the sweep is a list of
directory-iterator items, each carrying a name, a file/directory flag, a
flag for whether the iterator item itself was `Ok`, and the two-level
outcome of reading its metadata (the metadata read can fail, and a
successful read can still lack a modification time).
Machine integers (`i64` counters, timestamps) are modelled by `Nat`/`Int`;
the counters only grow by one per file so 64-bit overflow is unreachable and
is not modelled.
-/

set_option autoImplicit false

namespace MusicBackup

/-- Constant `KEEP_LOCAL_BACKUP_DAYS` (main.rs line 15). -/
def KEEP_LOCAL_BACKUP_DAYS : Int := 7

/-- Constant `CHUNK_SIZE` (main.rs line 16). The Rust value is `i64`; the
counter it is compared against starts at 0 and only increments, so `Nat`
models it faithfully. -/
def CHUNK_SIZE : Nat := 50

/-! ## Source tree and `walkdir` -/

/-- A filesystem subtree: a regular file (with a flag saying whether opening
and reading it succeeds, modelling permission/IO errors at main.rs lines
112-116) or a directory with an ordered list of children. The child order is
the order in which `walkdir` enumerates them. -/
inductive FsTree where
  | file (name : String) (readable : Bool)
  | dir (name : String) (children : List FsTree)

/-- One entry yielded by the `walkdir` iterator (main.rs line 86), already
relative to the source root: the path components after `strip_prefix`
(main.rs lines 102-103), whether `path.is_file()` holds (line 110), and
whether `File::open`/`read_to_end` on it would succeed. -/
structure Entry where
  relPath : List String
  isFile : Bool
  readable : Bool
deriving DecidableEq

mutual

/-- Entries produced by `walkdir` below one subtree, depth-first, each
directory yielded before its contents (walkdir's default order). -/
def walkFrom (pre : List String) : FsTree → List Entry
  | .file n r => [⟨pre ++ [n], true, r⟩]
  | .dir n cs => ⟨pre ++ [n], false, true⟩ :: walkList (pre ++ [n]) cs

/-- The function `walkFrom` mapped over a list of sibling subtrees, in order. -/
def walkList (pre : List String) : List FsTree → List Entry
  | [] => []
  | t :: ts => walkFrom pre t ++ walkList pre ts

end

/-- The full `walkdir::WalkDir::new(source_dir)` sequence for a source
directory whose children are `cs`: the root itself is yielded first, with an
empty relative path, then all descendants. -/
def walk (cs : List FsTree) : List Entry :=
  ⟨[], false, true⟩ :: walkList [] cs

/-- Models `name.to_string_lossy()` of a relative path (main.rs line 119): the
components joined with forward slashes; empty for the root entry. -/
def entryName (e : Entry) : String :=
  String.intercalate "/" e.relPath

/-! ## `zip_directory` -/

/-- Target of the `ZipWriter` constructed at main.rs line 85. The writer
created inside the `if` block at line 97 shadows the name `zip` only within
that block and is dropped at its end, so every `start_file`/`add_directory`
call in the loop body goes to this line-85 writer. -/
def dudTarget : String := "temp.zip"

/-- One archive member written by the loop: the writer it was written to,
the member name passed to `start_file`/`add_directory`, and whether it was a
file member (line 119) or a directory marker (line 126). -/
structure Member where
  dest : String
  name : String
  isFile : Bool
deriving DecidableEq

/-- State of the `zip_directory` loop: the `file_count` counter (line 79),
the names passed to `File::create` in the staging directory, in order
(line 96), the members written so far (lines 119-127), and whether the
function is still on the `Ok` path (`false` once a `?` has returned `Err`). -/
structure ZipState where
  fileCount : Nat
  created : List String
  members : List Member
  ok : Bool
deriving DecidableEq

/-- The zip-chunk file name computed at main.rs lines 89-95:
`"0.zip"` when `file_count == 0`, else `format!("{}.zip", file_count / CHUNK_SIZE)`
(that second branch also calls `zip.finish()` on the previous writer; it is
unreachable because the surrounding guard at line 88 requires
`file_count == 0`). -/
def chunkName (fileCount : Nat) : String :=
  if fileCount == 0 then "0.zip" else toString (fileCount / CHUNK_SIZE) ++ ".zip"

/-- The segment-initialisation block at main.rs lines 88-98: guarded by
`file_count % CHUNK_SIZE == 0 && file_count == 0`, it creates (truncating)
the chunk file in the staging directory. The fresh `ZipWriter` bound at line
97 is a new variable shadowing `zip` only inside this block, so it records a
created file but never receives any member. -/
def zipInit (s : ZipState) : ZipState :=
  if s.fileCount % CHUNK_SIZE == 0 && s.fileCount == 0 then
    { s with created := s.created ++ [chunkName s.fileCount] }
  else s

/-- The body of the `for entry in walkdir` loop (main.rs lines 86-129),
iterated over the entry sequence. Per entry: run the initialisation block;
skip the root (empty relative name, lines 105-108); for a file, open and
read it — an unreadable file makes the `?` at lines 112-116 return `Err`
from the whole function — then write it as a member of the in-scope writer
and increment `file_count` (lines 119-124); for a non-root directory, add a
directory marker (lines 125-128). -/
def zipLoop : ZipState → List Entry → ZipState
  | s, [] => s
  | s, e :: es =>
    if entryName e = "" then
      zipLoop (zipInit s) es
    else if e.isFile then
      if e.readable then
        zipLoop { zipInit s with
                  members := (zipInit s).members ++ [⟨dudTarget, entryName e, true⟩],
                  fileCount := (zipInit s).fileCount + 1 } es
      else
        { zipInit s with ok := false }
    else
      zipLoop { zipInit s with
                members := (zipInit s).members ++ [⟨dudTarget, entryName e, false⟩] } es

/-- Models `zip_directory(source_dir, output_dir)` (main.rs lines 69-136) on a
source directory with children `cs`, assuming the staging directory is
usable (so `File::create` succeeds). `ok = true` models `Ok(())`. -/
def zipDirectory (cs : List FsTree) : ZipState :=
  zipLoop ⟨0, [], [], true⟩ (walk cs)

/-- The members a given segment file of the staging directory ends up
containing: the writes whose destination writer is that file. -/
def segMembers (s : ZipState) (seg : String) : List Member :=
  s.members.filter (fun m => m.dest == seg)

/-! ## `cleanup_old_backups` -/

/-- One item of the `fs::read_dir` iterator (main.rs lines 192-193) for an
immediate child of the staging directory: its file name, whether it is a
regular file (`fs::remove_file` fails on anything else), whether the
iterator item itself was `Ok` (`readOk = false` models `entry?` at line
193 returning `Err`, which aborts the sweep), and the outcome of reading
its metadata. `metadata = none` models `fs::metadata(&path)?` at line 197
returning `Err` (for instance a broken symlink) — that `?` also aborts the
sweep; `metadata = some none` models metadata read with
`metadata.modified()` returning `Err`, which line 198 silently skips;
`metadata = some (some t)` is a known modification time `t` in seconds. -/
structure DirEntry where
  name : String
  isFile : Bool
  readOk : Bool
  metadata : Option (Option Int)
deriving DecidableEq

/-- Splits a file name's characters at every dot; the empty name gives one
empty segment, and `n` dots give `n + 1` segments. -/
def splitDots : List Char → List (List Char)
  | [] => [[]]
  | c :: cs =>
    match splitDots cs with
    | [] => [[c]]
    | p :: ps => if c = '.' then [] :: p :: ps else (c :: p) :: ps

/-- Models `Path::extension().and_then(|s| s.to_str())` (main.rs line 196) on a
file name: the portion after the last dot, unless there is no dot or the
only dot is the leading character of a hidden file. -/
def pathExtension (name : String) : Option String :=
  match (splitDots name.toList).map (fun l => String.mk l) with
  | [] => none
  | [_] => none
  | ["", _] => none
  | parts => parts.getLast?

/-- Scale of `chrono::Duration::days` in seconds. -/
def secondsPerDay : Int := 86400

/-- Result of one sweep: the entries still present afterwards, in their
original order, how many files were removed, and whether the function
returned `Ok` (`false` models a `?` propagating an error). -/
structure SweepResult where
  remaining : List DirEntry
  removed : Nat
  ok : Bool
deriving DecidableEq

/-- The `for entry in fs::read_dir(backup_dir)` loop (main.rs lines
192-206) over the staging directory's children, given the precomputed
cutoff instant. Per item, in the code's order: `let entry = entry?` (line
193) aborts the sweep on a failed iterator item; the extension filter
(line 196) passes over non-`zip` children; `fs::metadata(&path)?` (line
197) aborts the sweep when the metadata read fails; a failed
`metadata.modified()` (line 198) silently skips the entry; an entry whose
known modification time is strictly before the cutoff is passed to
`fs::remove_file` (line 201) — which removes a regular file but fails on a
directory, and the `?` then aborts the loop. Every abort leaves the
current entry and all later ones in place; every other entry is left
untouched. -/
def sweepList (cutoff : Int) : List DirEntry → SweepResult
  | [] => ⟨[], 0, true⟩
  | e :: es =>
    if e.readOk = false then
      ⟨e :: es, 0, false⟩
    else if pathExtension e.name = some "zip" then
      match e.metadata with
      | none =>
        ⟨e :: es, 0, false⟩
      | some none =>
        let r := sweepList cutoff es
        ⟨e :: r.remaining, r.removed, r.ok⟩
      | some (some t) =>
        if t < cutoff then
          if e.isFile then
            let r := sweepList cutoff es
            ⟨r.remaining, r.removed + 1, r.ok⟩
          else
            ⟨e :: es, 0, false⟩
        else
          let r := sweepList cutoff es
          ⟨e :: r.remaining, r.removed, r.ok⟩
    else
      let r := sweepList cutoff es
      ⟨e :: r.remaining, r.removed, r.ok⟩

/-- Models `cleanup_old_backups(backup_dir, keep_days)` (main.rs lines 185-209).
The staging directory is `none` when it does not exist — the function then
returns `Ok(())` at once (lines 188-190) — and `some es` when it exists
with children `es`. The cutoff is `Local::now() - Duration::days(keep_days)`
(line 186), with `now` an explicit parameter in seconds. -/
def cleanup_old_backups (backupDir : Option (List DirEntry)) (now keepDays : Int) :
    Option (List DirEntry) × Nat × Bool :=
  match backupDir with
  | none => (none, 0, true)
  | some es =>
    (some (sweepList (now - keepDays * secondsPerDay) es).remaining,
     (sweepList (now - keepDays * secondsPerDay) es).removed,
     (sweepList (now - keepDays * secondsPerDay) es).ok)

/-! ## Orchestration in `main` -/

/-- The phases of one backup run that `main` can execute after validation
(main.rs lines 274-288). -/
inductive Phase where
  | zipping
  | uploading
  | sweeping
  | done
deriving DecidableEq

/-- The sequence of phases `main` actually executes, given the outcome of
each fallible step: `zip_directory(..)?` (line 274), then
`upload_to_gcs(..).await?` (lines 277-282), then
`cleanup_old_backups(..)?` (line 285). Each `?` returns from `main` on
failure, so a failed step ends the run immediately and no later phase is
entered. -/
def mainRun (zipOk uploadOk sweepOk : Bool) : List Phase :=
  if !zipOk then [Phase.zipping]
  else if !uploadOk then [Phase.zipping, Phase.uploading]
  else if !sweepOk then [Phase.zipping, Phase.uploading, Phase.sweeping]
  else [Phase.zipping, Phase.uploading, Phase.sweeping, Phase.done]

/-! ## Derived predicates and concrete inputs used in the statements -/

/-- A staging-directory entry that the sweep's conditions select for
deletion: `zip` extension, a readable modification time, strictly before
the cutoff. (Whether `fs::remove_file` then succeeds depends on the entry
being a regular file.) -/
def isStale (cutoff : Int) (e : DirEntry) : Bool :=
  (pathExtension e.name == some "zip") &&
    (match e.metadata with
     | some (some t) => decide (t < cutoff)
     | _ => false)

/-- A flat source tree of 120 readable files `f0`, …, `f119`. -/
def tree120 : List FsTree :=
  (List.range 120).map (fun i => FsTree.file ("f" ++ toString i) true)

/-- A flat source tree whose middle file is unreadable. -/
def c5tree : List FsTree :=
  [FsTree.file "a" true, FsTree.file "b" false, FsTree.file "c" true]

/-- A staging directory holding a subdirectory named `old.zip` and, after
it, a stale regular archive `stale.zip`, both read cleanly and with
modification time 0. -/
def c4dir : List DirEntry :=
  [⟨"old.zip", false, true, some (some 0)⟩, ⟨"stale.zip", true, true, some (some 0)⟩]

/-! ## Helper lemmas about `zipInit` and `zipLoop` -/

theorem zipInit_members (s : ZipState) : (zipInit s).members = s.members := by
  unfold zipInit; split <;> rfl

theorem zipInit_created_mem (s : ZipState) (x : String)
    (h : x ∈ (zipInit s).created) : x ∈ s.created ∨ x = "0.zip" := by
  unfold zipInit at h
  split at h
  case isTrue hg =>
    have h0 : s.fileCount = 0 := by
      have hb := (Bool.and_eq_true _ _).mp hg
      exact eq_of_beq hb.2
    rw [List.mem_append] at h
    rcases h with h | h
    · exact Or.inl h
    · right
      have hc : chunkName s.fileCount = "0.zip" := by rw [h0]; rfl
      rw [hc] at h
      exact List.mem_singleton.mp h
  case isFalse => exact Or.inl h

theorem zipLoop_created_mem (es : List Entry) :
    ∀ (s : ZipState) (x : String), x ∈ (zipLoop s es).created →
      x ∈ s.created ∨ x = "0.zip" := by
  induction es with
  | nil => intro s x h; exact Or.inl h
  | cons e es ih =>
    intro s x h
    rw [zipLoop] at h
    by_cases hroot : entryName e = ""
    · rw [if_pos hroot] at h
      rcases ih _ _ h with h | h
      · exact zipInit_created_mem s x h
      · exact Or.inr h
    · rw [if_neg hroot] at h
      by_cases hf : e.isFile = true
      · rw [if_pos hf] at h
        by_cases hr : e.readable = true
        · rw [if_pos hr] at h
          rcases ih _ _ h with h | h
          · exact zipInit_created_mem s x h
          · exact Or.inr h
        · rw [if_neg hr] at h
          exact zipInit_created_mem s x h
      · rw [if_neg hf] at h
        rcases ih _ _ h with h | h
        · exact zipInit_created_mem s x h
        · exact Or.inr h

theorem zipLoop_members_mem (es : List Entry) :
    ∀ (s : ZipState) (m : Member), m ∈ (zipLoop s es).members →
      m ∈ s.members ∨ (m.dest = dudTarget ∧ m.name ≠ "") := by
  induction es with
  | nil => intro s m h; exact Or.inl h
  | cons e es ih =>
    intro s m h
    rw [zipLoop] at h
    by_cases hroot : entryName e = ""
    · rw [if_pos hroot] at h
      rcases ih _ _ h with h | h
      · rw [zipInit_members] at h; exact Or.inl h
      · exact Or.inr h
    · rw [if_neg hroot] at h
      by_cases hf : e.isFile = true
      · rw [if_pos hf] at h
        by_cases hr : e.readable = true
        · rw [if_pos hr] at h
          rcases ih _ _ h with h | h
          · rw [List.mem_append, zipInit_members] at h
            rcases h with h | h
            · exact Or.inl h
            · exact Or.inr ⟨congrArg Member.dest (List.mem_singleton.mp h),
                by rw [List.mem_singleton.mp h]; exact hroot⟩
          · exact Or.inr h
        · rw [if_neg hr] at h
          rw [show ({ zipInit s with ok := false } : ZipState).members
                = (zipInit s).members from rfl, zipInit_members] at h
          exact Or.inl h
      · rw [if_neg hf] at h
        rcases ih _ _ h with h | h
        · rw [List.mem_append, zipInit_members] at h
          rcases h with h | h
          · exact Or.inl h
          · exact Or.inr ⟨congrArg Member.dest (List.mem_singleton.mp h),
              by rw [List.mem_singleton.mp h]; exact hroot⟩
        · exact Or.inr h

theorem zipLoop_err (es : List Entry) :
    ∀ (s : ZipState) (e : Entry), e ∈ es → e.isFile = true → e.readable = false →
      entryName e ≠ "" → (zipLoop s es).ok = false := by
  induction es with
  | nil => intro s e he; exact absurd he (List.not_mem_nil e)
  | cons a es ih =>
    intro s e he hf hr hn
    rw [zipLoop]
    rcases List.mem_cons.mp he with hea | hes
    · subst hea
      rw [if_neg hn, if_pos hf, if_neg (by simp [hr])]
    · by_cases hroot : entryName a = ""
      · rw [if_pos hroot]; exact ih _ e hes hf hr hn
      · rw [if_neg hroot]
        by_cases haf : a.isFile = true
        · rw [if_pos haf]
          by_cases har : a.readable = true
          · rw [if_pos har]; exact ih _ e hes hf hr hn
          · rw [if_neg har]
        · rw [if_neg haf]; exact ih _ e hes hf hr hn

/-- Deduplicating a list all of whose elements are `"0.zip"` yields the
empty list or the singleton. -/
theorem dedup_all_zero (l : List String) (h : ∀ x ∈ l, x = "0.zip") :
    l.dedup = [] ∨ l.dedup = ["0.zip"] := by
  induction l with
  | nil => exact Or.inl rfl
  | cons a t ih =>
    have ha : a = "0.zip" := h a (List.mem_cons_self a t)
    have ht : ∀ x ∈ t, x = "0.zip" := fun x hx => h x (List.mem_cons_of_mem _ hx)
    rcases ih ht with hd | hd
    · have hnil : t = [] := (List.dedup_eq_nil t).mp hd
      subst hnil; subst ha
      right; rfl
    · right
      have hmem : a ∈ t := by
        rw [← List.mem_dedup, hd, ha]; exact List.mem_singleton_self _
      rw [List.dedup_cons_of_mem hmem]
      exact hd

/-! ## Helper lemmas about `sweepList` -/

/-- When every iterator item reads cleanly, every `.zip`-named child's
metadata read succeeds, and every entry the sweep's conditions select is a
regular file, no `?` in the loop ever fires: the sweep removes exactly the
selected entries, keeps all others in order, and returns `Ok`. -/
theorem sweepList_eq_filter (cutoff : Int) (es : List DirEntry)
    (hread : ∀ e ∈ es, e.readOk = true)
    (hmeta : ∀ e ∈ es, pathExtension e.name = some "zip" → e.metadata ≠ none)
    (h : ∀ e ∈ es, isStale cutoff e = true → e.isFile = true) :
    sweepList cutoff es =
      ⟨es.filter (fun e => !isStale cutoff e),
       (es.filter (fun e => isStale cutoff e)).length, true⟩ := by
  induction es with
  | nil => rfl
  | cons e es ih =>
    have heRead := hread e (List.mem_cons_self e es)
    have he := h e (List.mem_cons_self e es)
    have ih2 := ih (fun x hx => hread x (List.mem_cons_of_mem _ hx))
      (fun x hx => hmeta x (List.mem_cons_of_mem _ hx))
      (fun x hx => h x (List.mem_cons_of_mem _ hx))
    by_cases hext : pathExtension e.name = some "zip"
    · have hmetaE := hmeta e (List.mem_cons_self e es) hext
      cases hm : e.metadata with
      | none => exact absurd hm hmetaE
      | some m =>
        cases m with
        | none =>
          have hstale : isStale cutoff e = false := by simp [isStale, hm]
          simp [sweepList, heRead, hext, hm, ih2, List.filter_cons, hstale]
        | some t =>
          by_cases hlt : t < cutoff
          · have hstale : isStale cutoff e = true := by
              simp [isStale, hext, hm, hlt]
            have hfile := he hstale
            simp [sweepList, heRead, hext, hm, hlt, hfile, ih2,
              List.filter_cons, hstale]
          · have hstale : isStale cutoff e = false := by
              simp [isStale, hm, hlt]
            simp [sweepList, heRead, hext, hm, hlt, ih2, List.filter_cons,
              hstale]
    · have hstale : isStale cutoff e = false := by simp [isStale, hext]
      simp [sweepList, heRead, hext, ih2, List.filter_cons, hstale]

/-- Sweeping the remains of a sweep (with the same cutoff) removes nothing
and leaves the directory unchanged. -/
theorem sweepList_idem (cutoff : Int) (es : List DirEntry) :
    (sweepList cutoff (sweepList cutoff es).remaining).removed = 0 ∧
    (sweepList cutoff (sweepList cutoff es).remaining).remaining =
      (sweepList cutoff es).remaining := by
  induction es with
  | nil => exact ⟨rfl, rfl⟩
  | cons e es ih =>
    by_cases hrd : e.readOk = false
    · simp [sweepList, hrd]
    · by_cases hext : pathExtension e.name = some "zip"
      · cases hm : e.metadata with
        | none => simp [sweepList, hrd, hext, hm]
        | some m =>
          cases m with
          | none => simpa [sweepList, hrd, hext, hm] using ih
          | some t =>
            by_cases hlt : t < cutoff
            · by_cases hfile : e.isFile = true
              · simpa [sweepList, hrd, hext, hm, hlt, hfile] using ih
              · simp [sweepList, hrd, hext, hm, hlt, hfile]
            · simpa [sweepList, hrd, hext, hm, hlt] using ih
      · simpa [sweepList, hrd, hext] using ih

/-! ## Claim theorems -/

set_option maxRecDepth 8192

/-- C1. The spec says a tree with 120 files and chunk size 50 yields exactly
3 sealed segments with file counts 50, 50 and 20, and that is also what the
code's own comments and its dead `{file_count / CHUNK_SIZE}.zip` branch
intend. The code as written does not: because the rollover guard at line 88
demands `file_count == 0` and the fresh writer at line 97 is shadowed and
dropped, a 120-file run creates only the single segment file `0.zip`, that
segment receives 0 members, and all 120 file members go to the `temp.zip`
writer of line 85. -/
theorem c1_chunking_bug :
    (zipDirectory tree120).fileCount = 120 ∧
    (zipDirectory tree120).created.dedup = ["0.zip"] ∧
    segMembers (zipDirectory tree120) "0.zip" = [] ∧
    segMembers (zipDirectory tree120) "1.zip" = [] ∧
    segMembers (zipDirectory tree120) "2.zip" = [] ∧
    (segMembers (zipDirectory tree120) dudTarget).length = 120 := by
  decide

/-- C2. For every run of the archiver the distinct segment file names
created in the staging directory are exactly `{i}.zip` for `i` ranging over
`0..N-1` where `N` is the number of distinct segments: contiguous, starting
at 0, with no gaps or repeats. (On this code `N ≤ 1` always: only `0.zip`
is ever created.) -/
theorem c2_segment_indices (cs : List FsTree) :
    (zipDirectory cs).created.dedup =
      (List.range (zipDirectory cs).created.dedup.length).map
        (fun i => toString i ++ ".zip") := by
  have hall : ∀ x ∈ (zipDirectory cs).created, x = "0.zip" := fun x hx => by
    rcases zipLoop_created_mem (walk cs) _ x hx with h | h
    · exact absurd h (List.not_mem_nil x)
    · exact h
  rcases dedup_all_zero _ hall with h | h <;> rw [h] <;> decide

/-- C3. The archiver is deterministic in the traversal order of its input
tree: two runs whose `walkdir` sequences coincide (an unchanged filesystem)
produce identical outcomes — the same created segment files, the same
members with the same names in the same order, byte for byte. -/
theorem c3_deterministic (cs1 cs2 : List FsTree) (h : walk cs1 = walk cs2) :
    zipDirectory cs1 = zipDirectory cs2 := by
  unfold zipDirectory
  rw [h]

theorem c3_deterministic_witness :
    walk [FsTree.file "a" true] = walk [FsTree.file "a" true] ∧
    zipDirectory [FsTree.file "a" true] = zipDirectory [FsTree.file "a" true] :=
  ⟨rfl, c3_deterministic [FsTree.file "a" true] [FsTree.file "a" true] rfl⟩

/-- C4 counterexample. The claim that the sweep deletes exactly the
immediate-child `.zip` files older than the cutoff fails: in a staging
directory whose first child is a subdirectory named `old.zip` with an old
modification time, `fs::remove_file` on that subdirectory fails, the `?`
aborts the sweep, and the stale regular file `stale.zip` behind it — a
`.zip` file strictly older than the cutoff — survives, with zero files
removed and an error returned. -/
theorem c4_counterexample :
    pathExtension "stale.zip" = some "zip" ∧
    (⟨"stale.zip", true, true, some (some 0)⟩ : DirEntry) ∈ c4dir ∧
    (0 : Int) < 10 * secondsPerDay - KEEP_LOCAL_BACKUP_DAYS * secondsPerDay ∧
    cleanup_old_backups (some c4dir) (10 * secondsPerDay) KEEP_LOCAL_BACKUP_DAYS =
      (some c4dir, 0, false) := by
  decide

/-- C4 amended. Provided every directory-iterator item is read
successfully, `fs::metadata` succeeds on every immediate child with the
`zip` extension, and every such child with a known modification time
strictly older than the cutoff is a regular file, `cleanup_old_backups`
deletes exactly those stale archives, leaves every newer file and every
non-archive child unchanged and in order, and returns success. (Each
hypothesis excludes one `?` abort path of the loop: `entry?` at line 193,
`fs::metadata(&path)?` at line 197, and `fs::remove_file(&path)?` at line
201 on a non-file.) -/
theorem c4_sweep_amended (es : List DirEntry) (now keepDays : Int)
    (hread : ∀ e ∈ es, e.readOk = true)
    (hmeta : ∀ e ∈ es, pathExtension e.name = some "zip" → e.metadata ≠ none)
    (hfile : ∀ e ∈ es, isStale (now - keepDays * secondsPerDay) e = true →
      e.isFile = true) :
    cleanup_old_backups (some es) now keepDays =
      (some (es.filter (fun e => !isStale (now - keepDays * secondsPerDay) e)),
       (es.filter (fun e => isStale (now - keepDays * secondsPerDay) e)).length,
       true) := by
  have hs := sweepList_eq_filter (now - keepDays * secondsPerDay) es hread hmeta hfile
  simp only [cleanup_old_backups, hs]

theorem c4_sweep_amended_witness :
    ((∀ e ∈ [(⟨"a.zip", true, true, some (some 0)⟩ : DirEntry),
             ⟨"b.txt", true, true, some (some 0)⟩,
             ⟨"c.zip", true, true, some (some (100 * secondsPerDay))⟩],
        e.readOk = true) ∧
     (∀ e ∈ [(⟨"a.zip", true, true, some (some 0)⟩ : DirEntry),
             ⟨"b.txt", true, true, some (some 0)⟩,
             ⟨"c.zip", true, true, some (some (100 * secondsPerDay))⟩],
        pathExtension e.name = some "zip" → e.metadata ≠ none) ∧
     (∀ e ∈ [(⟨"a.zip", true, true, some (some 0)⟩ : DirEntry),
             ⟨"b.txt", true, true, some (some 0)⟩,
             ⟨"c.zip", true, true, some (some (100 * secondsPerDay))⟩],
        isStale (10 * secondsPerDay - 7 * secondsPerDay) e = true →
          e.isFile = true)) ∧
    cleanup_old_backups
        (some [(⟨"a.zip", true, true, some (some 0)⟩ : DirEntry),
               ⟨"b.txt", true, true, some (some 0)⟩,
               ⟨"c.zip", true, true, some (some (100 * secondsPerDay))⟩])
        (10 * secondsPerDay) 7 =
      (some ([(⟨"a.zip", true, true, some (some 0)⟩ : DirEntry),
              ⟨"b.txt", true, true, some (some 0)⟩,
              ⟨"c.zip", true, true, some (some (100 * secondsPerDay))⟩].filter
          (fun e => !isStale (10 * secondsPerDay - 7 * secondsPerDay) e)),
       ([(⟨"a.zip", true, true, some (some 0)⟩ : DirEntry),
         ⟨"b.txt", true, true, some (some 0)⟩,
         ⟨"c.zip", true, true, some (some (100 * secondsPerDay))⟩].filter
          (fun e => isStale (10 * secondsPerDay - 7 * secondsPerDay) e)).length,
       true) :=
  ⟨⟨by decide, by decide, by decide⟩,
   c4_sweep_amended
     [⟨"a.zip", true, true, some (some 0)⟩, ⟨"b.txt", true, true, some (some 0)⟩,
      ⟨"c.zip", true, true, some (some (100 * secondsPerDay))⟩]
     (10 * secondsPerDay) 7 (by decide) (by decide) (by decide)⟩

/-- C5 counterexample. The claim that an unreadable file is logged and
skipped, archiving continuing with the next entry, fails: with source
children `a` (readable), `b` (unreadable), `c` (readable), the `?` at the
`File::open` of `b` aborts `zip_directory` with an error, and `c` is never
archived — the only member written is `a`. -/
theorem c5_counterexample :
    (zipDirectory c5tree).ok = false ∧
    (zipDirectory c5tree).members.map (fun m => m.name) = ["a"] := by
  decide

/-- C5 amended. A read failure on any individual file entry (other than the
skipped root) aborts the whole `zip_directory` call with an error; the
failing entry is not skipped and archiving does not continue. -/
theorem c5_amended (cs : List FsTree) (e : Entry) (he : e ∈ walk cs)
    (hf : e.isFile = true) (hr : e.readable = false) (hn : entryName e ≠ "") :
    (zipDirectory cs).ok = false :=
  zipLoop_err (walk cs) _ e he hf hr hn

theorem c5_amended_witness :
    ((⟨["b"], true, false⟩ : Entry) ∈ walk c5tree ∧
     (⟨["b"], true, false⟩ : Entry).isFile = true ∧
     (⟨["b"], true, false⟩ : Entry).readable = false ∧
     entryName ⟨["b"], true, false⟩ ≠ "") ∧
    (zipDirectory c5tree).ok = false :=
  ⟨⟨by decide, rfl, rfl, by decide⟩,
   c5_amended c5tree ⟨["b"], true, false⟩ (by decide) rfl rfl (by decide)⟩

/-- C6 counterexample. The claim that the retention sweep runs regardless
of the upload outcome fails: in a run where zipping succeeds and the upload
fails, the `?` after `upload_to_gcs` returns from `main` at once and the
sweeping phase is never entered. -/
theorem c6_counterexample : Phase.sweeping ∉ mainRun true false true := by
  decide

/-- C6 amended. The retention sweep over the staging directory is executed
exactly when both zipping and the upload succeed; an upload failure aborts
the run before the sweep. -/
theorem c6_amended (z u s : Bool) :
    Phase.sweeping ∈ mainRun z u s ↔ z = true ∧ u = true := by
  cases z <;> cases u <;> cases s <;> decide

/-- C7. For an empty source tree (no entries below the root) the archiver
produces exactly one segment file, `0.zip`, which contains 0 entries: the
root entry of the walk triggers the creation of `0.zip` before being
skipped, no member is ever written, and the function returns `Ok`. -/
theorem c7_empty_tree :
    (zipDirectory []).created.dedup = ["0.zip"] ∧
    (zipDirectory []).members = [] ∧
    (zipDirectory []).fileCount = 0 ∧
    (zipDirectory []).ok = true := by
  decide

/-- C8. Running the sweep twice in succession over the same staging
directory (at the same instant) deletes nothing the second time: the second
sweep removes zero files and leaves the directory exactly as the first
sweep left it. -/
theorem c8_sweep_idempotent (es : List DirEntry) (now keepDays : Int) :
    (cleanup_old_backups (cleanup_old_backups (some es) now keepDays).1
        now keepDays).2.1 = 0 ∧
    (cleanup_old_backups (cleanup_old_backups (some es) now keepDays).1
        now keepDays).1 = (cleanup_old_backups (some es) now keepDays).1 := by
  have h := sweepList_idem (now - keepDays * secondsPerDay) es
  constructor
  · simpa [cleanup_old_backups] using h.1
  · simp only [cleanup_old_backups, Option.some.injEq]
    exact h.2

/-- C9. The archiver never emits an archive member for the source root
itself: every member written by any run has a non-empty name relative to
the source root (the root entry is skipped before any write). -/
theorem c9_no_root_entry (cs : List FsTree) (m : Member)
    (h : m ∈ (zipDirectory cs).members) : m.name ≠ "" := by
  rcases zipLoop_members_mem (walk cs) _ m h with h | h
  · exact absurd h (List.not_mem_nil m)
  · exact h.2

theorem c9_no_root_entry_witness :
    (⟨dudTarget, "a", true⟩ : Member) ∈
      (zipDirectory [FsTree.file "a" true]).members ∧
    (⟨dudTarget, "a", true⟩ : Member).name ≠ "" :=
  ⟨by decide,
   c9_no_root_entry [FsTree.file "a" true] ⟨dudTarget, "a", true⟩ (by decide)⟩

/-- C10. When the staging directory does not exist, `cleanup_old_backups`
returns success immediately for every age threshold, deleting nothing and
producing no error. -/
theorem c10_missing_staging_dir (now keepDays : Int) :
    cleanup_old_backups none now keepDays = (none, 0, true) := rfl

end MusicBackup
